import Mathlib

/-!
Verification of the bookcondense pipeline.

A shallow embedding, in Lean 4, of the core logic of the `bookcondense`
repository, together with theorems settling the specification claims.

Modelling conventions:
* JavaScript numbers are modelled as rationals (`ℚ`); all arithmetic in the
  embedded code paths is exact on the values that occur.
* JavaScript strings are modelled as lists of UTF-16 code units
  (`List Nat`); every character handled by this code base lies in the
  Basic Multilingual Plane, so code units coincide with code points.
* `Math.round` in JavaScript rounds half-way cases toward positive
  infinity, hence `jsRound q = ⌊q + 1/2⌋`.
* Asynchronous completion of the per-page condensation tasks is modelled
  by quantifying over an arbitrary permutation of the input pages (the
  completion order) and over an oracle for the external condensation
  service.
-/

namespace BookCondense

/-- JavaScript `Math.min` on (non-NaN) numbers. -/
def jsMin (a b : ℚ) : ℚ :=
  if a ≤ b then a else b

/-- JavaScript `Math.max` on (non-NaN) numbers. -/
def jsMax (a b : ℚ) : ℚ :=
  if a ≤ b then b else a

/-- `clamp` from `src/lib/summarizer.ts`:
`Math.min(Math.max(value, min), max)`. -/
def clamp (value lo hi : ℚ) : ℚ :=
  jsMin (jsMax value lo) hi

/-- JavaScript `Math.round`: round half toward positive infinity,
i.e. the floor of `q + 1/2`. -/
def jsRound (q : ℚ) : ℚ :=
  ((⌊q + 1/2⌋ : ℤ) : ℚ)

/-- `targetSummaryWordCount` from `src/lib/summarizer.ts` (lines 41-48):
`ratio = clamp(densityPercent, 5, 95) / 100`,
`raw = Math.round(page.wordCount * ratio)`,
result `clamp(raw, MIN_SUMMARY_WORDS, MAX_SUMMARY_WORDS)` with
`MIN_SUMMARY_WORDS = 120`, `MAX_SUMMARY_WORDS = 650`. -/
def targetSummaryWordCount (wordCount densityPercent : ℚ) : ℚ :=
  let ratio := clamp densityPercent 5 95 / 100
  let raw := jsRound (wordCount * ratio)
  clamp raw 120 650

/-- `targetQuotedWords` from `src/lib/summarizer.ts` (lines 50-59):
`ratio = clamp(quoteDensity, 0, 100) / 100`,
`desired = Math.round(summaryTargetWords * ratio)`,
`maxQuotedWords = Math.max(0, summaryTargetWords - 20)`,
result `clamp(desired, ratio > 0 ? 12 : 0, maxQuotedWords)`. -/
def targetQuotedWords (summaryTargetWords quoteDensity : ℚ) : ℚ :=
  let ratio := clamp quoteDensity 0 100 / 100
  let desired := jsRound (summaryTargetWords * ratio)
  let maxQuotedWords := jsMax 0 (summaryTargetWords - 20)
  clamp desired (if ratio > 0 then 12 else 0) maxQuotedWords

/-- The claim formula for the summary target, written exactly as the spec
states it: `clamp(round(wordCount * clamp(summaryDensity,5,95)/100), 120, 650)`. -/
def targetSummaryWordsSpec (wordCount summaryDensity : ℚ) : ℚ :=
  clamp (jsRound (wordCount * clamp summaryDensity 5 95 / 100)) 120 650

/-- The claim formula for the quote target, written exactly as the spec
states it: `clamp(round(target * clamp(quoteDensity,0,100)/100),
quoteDensity>0 ? 12 : 0, max(0, target - 20))`. -/
def targetQuoteWordsSpec (targetSummaryWords quoteDensity : ℚ) : ℚ :=
  clamp (jsRound (targetSummaryWords * clamp quoteDensity 0 100 / 100))
    (if quoteDensity > 0 then 12 else 0) (jsMax 0 (targetSummaryWords - 20))

/-- The zod `percentSchema(min, max, fallback)` from the condense route
(`z.number().min(min).max(max)` applied to a submitted numeric value):
accepts exactly the numbers in `[min, max]`. -/
def percentSchemaAccepts (lo hi v : ℚ) : Bool :=
  decide (lo ≤ v) && decide (v ≤ hi)

/-- The route's `requestSchema` field `summaryDensity: percentSchema(10, 100, 70)`. -/
def summaryDensityAccepts (v : ℚ) : Bool :=
  percentSchemaAccepts 10 100 v

/-- The route's `requestSchema` field `quoteDensity: percentSchema(0, 100, 30)`. -/
def quoteDensityAccepts (v : ℚ) : Bool :=
  percentSchemaAccepts 0 100 v

lemma clamp_div_pos_iff (q : ℚ) : clamp q 0 100 / 100 > 0 ↔ q > 0 := by
  unfold clamp jsMin jsMax
  split_ifs with h1 h2 h2
  · norm_num
    linarith
  · norm_num at h2
  · rw [gt_iff_lt, div_pos_iff]
    push_neg at h1
    constructor
    · rintro (⟨ha, _⟩ | ⟨_, hb⟩)
      · exact ha
      · linarith
    · intro h
      exact Or.inl ⟨h, by norm_num⟩
  · push_neg at h1 h2
    norm_num
    linarith

/-- C3 (amended): the computed targets satisfy exactly the spec formulas
`targetSummaryWords = clamp(round(wordCount * clamp(summaryDensity,5,95)/100), 120, 650)`
and `targetQuoteWords = clamp(round(target * clamp(quoteDensity,0,100)/100),
quoteDensity>0 ? 12 : 0, max(0, target-20))`; and for `wordCount = 1000`,
`summaryDensity = 0` yields 120 while `summaryDensity = 100` yields 650. -/
theorem claim_C3 :
    (∀ wordCount density : ℚ,
      targetSummaryWordCount wordCount density = targetSummaryWordsSpec wordCount density) ∧
    (∀ target quoteDensity : ℚ,
      targetQuotedWords target quoteDensity = targetQuoteWordsSpec target quoteDensity) ∧
    targetSummaryWordCount 1000 0 = 120 ∧
    targetSummaryWordCount 1000 100 = 650 := by
  refine ⟨fun wc d => ?_, fun t q => ?_, ?_, ?_⟩
  · unfold targetSummaryWordCount targetSummaryWordsSpec
    rw [mul_div_assoc]
  · unfold targetQuotedWords targetQuoteWordsSpec
    rw [mul_div_assoc]
    simp only [clamp_div_pos_iff]
  · norm_num [targetSummaryWordCount, clamp, jsMin, jsMax, jsRound]
  · norm_num [targetSummaryWordCount, clamp, jsMin, jsMax, jsRound]

/-- C3 counterexample: the claim's "summaryDensity=0 yields
targetSummaryWords = 120" is false in general — for a page of 10000 words
and summaryDensity 0 the target is 500, because the 5% floor of the density
clamp exceeds the 120-word floor on large pages. -/
theorem claim_C3_counterexample :
    targetSummaryWordCount 10000 0 = 500 ∧ ¬ targetSummaryWordCount 10000 0 = 120 := by
  norm_num [targetSummaryWordCount, clamp, jsMin, jsMax, jsRound]

/-- C7 (amended): the orchestrator-boundary validation accepts a numeric
`summaryDensity` iff it lies in `[10,100]` (not `[5,100]`), and a numeric
`quoteDensity` iff it lies in `[0,100]`. -/
theorem claim_C7 :
    ∀ v : ℚ,
      (summaryDensityAccepts v = true ↔ 10 ≤ v ∧ v ≤ 100) ∧
      (quoteDensityAccepts v = true ↔ 0 ≤ v ∧ v ≤ 100) := by
  intro v
  constructor <;>
    simp [summaryDensityAccepts, quoteDensityAccepts, percentSchemaAccepts]

/-- C7 counterexample: `summaryDensity = 7` lies in the claimed acceptance
interval `[5,100]` but is rejected by the route's schema, whose lower bound
is 10. -/
theorem claim_C7_counterexample :
    summaryDensityAccepts 7 = false ∧ (5 : ℚ) ≤ 7 ∧ (7 : ℚ) ≤ 100 := by
  refine ⟨?_, by norm_num, by norm_num⟩
  simp only [summaryDensityAccepts, percentSchemaAccepts, Bool.and_eq_false_iff]
  left
  rw [decide_eq_false_iff_not]
  norm_num

/-- The JavaScript regexp class `\s` (ECMAScript WhiteSpace ∪ LineTerminator),
on UTF-16 code units. -/
def isJsWhitespace (c : Nat) : Bool :=
  c = 9 || c = 10 || c = 11 || c = 12 || c = 13 || c = 32 ||
  c = 160 || c = 5760 || (decide (8192 ≤ c) && decide (c ≤ 8202)) ||
  c = 8232 || c = 8233 || c = 8239 || c = 8287 || c = 12288 || c = 65279

/-- JavaScript `String.prototype.trim`. -/
def jsTrim (s : List Nat) : List Nat :=
  ((s.dropWhile isJsWhitespace).reverse.dropWhile isJsWhitespace).reverse

/-- JavaScript `String.prototype.trimEnd`. -/
def jsTrimEnd (s : List Nat) : List Nat :=
  (s.reverse.dropWhile isJsWhitespace).reverse

/-- Helper for `jsWords`: `cur` is the reversed run of non-whitespace units
currently being accumulated. -/
def jsWordsGo : List Nat → List Nat → List (List Nat)
  | cur, [] => if cur = [] then [] else [cur.reverse]
  | cur, c :: rest =>
    if isJsWhitespace c then
      if cur = [] then jsWordsGo [] rest else cur.reverse :: jsWordsGo [] rest
    else jsWordsGo (c :: cur) rest

/-- `str.split(/\s+/).filter(Boolean)`: the maximal runs of
non-whitespace code units, in order. -/
def jsWords (s : List Nat) : List (List Nat) :=
  jsWordsGo [] s

/-- Scanner for the global regexp `open([^close]+)close` (the shape of both
`/“([^”]+)”/g` and `/"([^"]+)"/g` in `extractQuotes`,
`src/lib/summarizer.ts` lines 63-64). The state is `none` while looking for
an opening unit and `some acc` (reversed span contents) after one; a span
is emitted when a closing unit follows at least one non-closing unit, and
scanning resumes after the closing unit. A closing unit met with an empty
span restarts the scan on that very unit (`[^…]+` needs one unit, so the
engine advances one position), and an unterminated span emits nothing,
exactly as the regexp engine behaves. -/
def spansGo (openQ closeQ : Nat) : Option (List Nat) → List Nat → List (List Nat)
  | _, [] => []
  | none, c :: rest =>
    if c = openQ then spansGo openQ closeQ (some []) rest
    else spansGo openQ closeQ none rest
  | some acc, c :: rest =>
    if c = closeQ then
      if acc = [] then
        if c = openQ then spansGo openQ closeQ (some []) rest
        else spansGo openQ closeQ none rest
      else acc.reverse :: spansGo openQ closeQ none rest
    else spansGo openQ closeQ (some (c :: acc)) rest

/-- The matched groups of `open([^close]+)close` applied globally, in match
order. -/
def spansBetween (openQ closeQ : Nat) (s : List Nat) : List (List Nat) :=
  spansGo openQ closeQ none s

/-- `InlineQuote` from `src/lib/types.ts`. -/
structure InlineQuote where
  text : List Nat
  commentary : Option (List Nat)
  originalPage : Int
deriving DecidableEq

/-- The per-span processing shared by both loops of `extractQuotes`
(lines 70-90): skip a span whose trimmed text is empty or already in
`seen`, otherwise record it and add it to `seen`. The input spans are
already trimmed. -/
def dedupQuoteTexts (seen : List (List Nat)) : List (List Nat) → List (List Nat)
  | [] => []
  | t :: ts =>
    if t = [] || seen.contains t then dedupQuoteTexts seen ts
    else t :: dedupQuoteTexts (t :: seen) ts

/-- `extractQuotes` from `src/lib/summarizer.ts` (lines 61-93): first every
smart-quoted span `“…”`, then every straight-quoted span `"…"`, each
trimmed, skipping empties and duplicates (the `seen` set is shared across
the two loops), each mapped to an `InlineQuote` with `commentary: null`
and the given page number. Code units: `“` = 8220, `”` = 8221, `"` = 34. -/
def extractQuotes (summary : List Nat) (originalPage : Int) : List InlineQuote :=
  (dedupQuoteTexts []
      ((spansBetween 8220 8221 summary ++ spansBetween 34 34 summary).map jsTrim)).map
    (fun t => { text := t, commentary := none, originalPage := originalPage })

/-- `PageContent` from `src/lib/types.ts`. -/
structure PageContent where
  pageNumber : Int
  text : List Nat
  wordCount : ℚ
deriving DecidableEq

/-- `DensitySettings` from `src/lib/types.ts`. -/
structure DensitySettings where
  summaryDensity : ℚ
  quoteDensity : ℚ
deriving DecidableEq

/-- `PageSummaryResult` from `src/lib/summarizer.ts`. -/
structure PageSummaryResult where
  pageNumber : Int
  summary : List Nat
  quotes : List InlineQuote
  targetSummaryWords : ℚ
  targetQuoteWords : ℚ
  actualSummaryWords : Nat
  actualQuotedWords : Nat
deriving DecidableEq

/-- The successful result of `processPage` (`src/lib/summarizer.ts` lines
102-186) for a page whose condensation response (modelled by `oracle`) has
non-empty trimmed text: the result's `pageNumber` is the input page's, the
quotes come from `extractQuotes`, and the actual counts are whitespace
tokenizations of the summary and of the quote texts. -/
def processedPage (oracle : PageContent → List Nat) (density : DensitySettings)
    (page : PageContent) : PageSummaryResult :=
  let targetWords := targetSummaryWordCount page.wordCount density.summaryDensity
  let summaryText := jsTrim (oracle page)
  let quotes := extractQuotes summaryText page.pageNumber
  { pageNumber := page.pageNumber
    summary := summaryText
    quotes := quotes
    targetSummaryWords := targetWords
    targetQuoteWords := targetQuotedWords targetWords density.quoteDensity
    actualSummaryWords := (jsWords summaryText).length
    actualQuotedWords := (quotes.map (fun q => (jsWords q.text).length)).sum }

/-- `processPage`: `none` models the thrown
`Model returned empty response` error (line 140-142). -/
def processPage (oracle : PageContent → List Nat) (density : DensitySettings)
    (page : PageContent) : Option PageSummaryResult :=
  if jsTrim (oracle page) = [] then none
  else some (processedPage oracle density page)

/-- The comparator of `results.sort((a, b) => a.pageNumber - b.pageNumber)`
(`src/lib/summarizer.ts` line 239). -/
def byPageNumber (a b : PageSummaryResult) : Bool :=
  decide (a.pageNumber ≤ b.pageNumber)

/-- `summarizePages` (`src/lib/summarizer.ts` lines 196-242), modelled under
a completion-order abstraction: the bounded-concurrency loop completes the
per-page tasks in some permutation `completionOrder` of the input pages,
accumulating results in completion order (a failed task rejects the whole
call, modelled by `none`), and finally sorts by `pageNumber` ascending. -/
def summarizePagesModel (oracle : PageContent → List Nat) (density : DensitySettings)
    (completionOrder : List PageContent) : Option (List PageSummaryResult) :=
  match completionOrder.mapM (processPage oracle density) with
  | none => none
  | some results => some (results.mergeSort byPageNumber)

/-- The progress-callback bookkeeping of `summarizePages` (lines 209,
216-222): `completedCount` starts at 0 and each completion first increments
it, then invokes `onProgress(result, completedCount)`. The returned list is
the sequence of `(result, completedCount)` arguments passed to `onProgress`,
in invocation order, given the results in completion order. -/
def progressLogGo (completedCount : Nat) : List PageSummaryResult → List (PageSummaryResult × Nat)
  | [] => []
  | r :: rs => (r, completedCount + 1) :: progressLogGo (completedCount + 1) rs

/-- The full `onProgress` invocation log of a run of `summarizePages` whose
tasks complete in the given order. -/
def progressLog (completions : List PageSummaryResult) : List (PageSummaryResult × Nat) :=
  progressLogGo 0 completions

lemma list_mapM_option {α β : Type} (f : α → Option β) (g : α → β) :
    ∀ l : List α, (∀ x ∈ l, f x = some (g x)) → l.mapM f = some (l.map g) := by
  intro l
  induction l with
  | nil => intro _; rfl
  | cons a l ih =>
    intro h
    rw [List.mapM_cons, h a (List.mem_cons_self a l), ih fun x hx => h x (List.mem_cons_of_mem a hx)]
    rfl

lemma byPageNumber_trans (a b c : PageSummaryResult) :
    byPageNumber a b → byPageNumber b c → byPageNumber a c := by
  simp only [byPageNumber, decide_eq_true_iff]
  exact le_trans

lemma byPageNumber_total (a b : PageSummaryResult) :
    byPageNumber a b || byPageNumber b a := by
  simp only [byPageNumber, Bool.or_eq_true, decide_eq_true_iff]
  exact le_total a.pageNumber b.pageNumber

/-- C1: for every list of input pages whose condensation succeeds and every
completion order of the per-page tasks, `summarizePages` returns exactly one
result per input page (the output is a permutation of the per-page results)
and the output is sorted by `pageNumber` ascending. -/
theorem claim_C1 (oracle : PageContent → List Nat) (density : DensitySettings)
    (pages completionOrder : List PageContent)
    (hperm : completionOrder.Perm pages)
    (hok : ∀ p ∈ pages, jsTrim (oracle p) ≠ []) :
    ∃ out : List PageSummaryResult,
      summarizePagesModel oracle density completionOrder = some out ∧
      out.Perm (pages.map (processedPage oracle density)) ∧
      List.Pairwise (fun a b => a.pageNumber ≤ b.pageNumber) out := by
  have hok' : ∀ p ∈ completionOrder,
      processPage oracle density p = some (processedPage oracle density p) := by
    intro p hp
    have hne := hok p (hperm.subset hp)
    simp [processPage, hne]
  have hmapM := list_mapM_option _ _ completionOrder hok'
  refine ⟨(completionOrder.map (processedPage oracle density)).mergeSort byPageNumber,
    ?_, ?_, ?_⟩
  · unfold summarizePagesModel
    rw [hmapM]
  · exact (List.mergeSort_perm _ _).trans (hperm.map _)
  · have hs := List.sorted_mergeSort byPageNumber_trans byPageNumber_total
      (completionOrder.map (processedPage oracle density))
    exact hs.imp fun h => by simpa [byPageNumber] using h

/-- Witness for C1 at a concrete two-page input completed in reverse order. -/
theorem claim_C1_witness :
    ((([⟨2, [98], 7⟩, ⟨1, [97], 5⟩] : List PageContent).Perm
        [⟨1, [97], 5⟩, ⟨2, [98], 7⟩]) ∧
      (∀ p ∈ ([⟨1, [97], 5⟩, ⟨2, [98], 7⟩] : List PageContent),
        jsTrim ((fun _ => [120]) p) ≠ [])) ∧
    (∃ out : List PageSummaryResult,
      summarizePagesModel (fun _ => [120]) ⟨70, 30⟩
          [⟨2, [98], 7⟩, ⟨1, [97], 5⟩] = some out ∧
      out.Perm (([⟨1, [97], 5⟩, ⟨2, [98], 7⟩] : List PageContent).map
        (processedPage (fun _ => [120]) ⟨70, 30⟩)) ∧
      List.Pairwise (fun a b => a.pageNumber ≤ b.pageNumber) out) := by
  have hperm : ([⟨2, [98], 7⟩, ⟨1, [97], 5⟩] : List PageContent).Perm
      [⟨1, [97], 5⟩, ⟨2, [98], 7⟩] := List.Perm.swap _ _ _
  have hok : ∀ p ∈ ([⟨1, [97], 5⟩, ⟨2, [98], 7⟩] : List PageContent),
      jsTrim ((fun _ => [120]) p) ≠ [] := by
    intro p _
    show jsTrim [120] ≠ []
    decide
  exact ⟨⟨hperm, hok⟩, claim_C1 (fun _ => [120]) ⟨70, 30⟩ _ _ hperm hok⟩

lemma progressLogGo_eq (completions : List PageSummaryResult) :
    ∀ c : Nat, progressLogGo c completions =
      completions.zip (List.range' (c + 1) completions.length) := by
  induction completions with
  | nil => intro c; rfl
  | cons r rs ih =>
    intro c
    simp only [progressLogGo, List.length_cons, List.range'_succ, List.zip_cons_cons, ih]

/-- C2: during a run of `summarizePages`, `onProgress` fires exactly once
per completed page task, in completion order, and the `completedCount`
passed to the k-th invocation is exactly k: the invocation log is the
completion sequence zipped with 1, 2, …, n, so the counts never skip or
repeat. -/
theorem claim_C2 (completions : List PageSummaryResult) :
    progressLog completions = completions.zip (List.range' 1 completions.length) ∧
    (progressLog completions).map Prod.snd = List.range' 1 completions.length ∧
    (progressLog completions).length = completions.length := by
  have h := progressLogGo_eq completions 0
  refine ⟨h, ?_, ?_⟩
  · rw [progressLog, h]
    exact List.map_snd_zip _ _ (by simp)
  · rw [progressLog, h]
    simp

/-- Second definition for the C6 refinement claim, following the spec's
words rather than the code: scan the summary text left to right, matching
either quote style at the position where it appears, so that spans are
collected in order of first appearance regardless of style. The state
carries the style (`true` = smart `“…”`, `false` = straight `"…"`) and the
reversed contents of the open span. -/
def appearanceSpansGo : Option (Bool × List Nat) → List Nat → List (List Nat)
  | _, [] => []
  | none, c :: rest =>
    if c = 8220 then appearanceSpansGo (some (true, [])) rest
    else if c = 34 then appearanceSpansGo (some (false, [])) rest
    else appearanceSpansGo none rest
  | some (style, acc), c :: rest =>
    if c = (if style then 8221 else 34) then
      if acc = [] then
        if c = 8220 then appearanceSpansGo (some (true, [])) rest
        else if c = 34 then appearanceSpansGo (some (false, [])) rest
        else appearanceSpansGo none rest
      else acc.reverse :: appearanceSpansGo none rest
    else appearanceSpansGo (some (style, c :: acc)) rest

/-- The claim's reading of `extractQuotes`: spans of either style in order
of first appearance within the summary text, trimmed, deduplicated. -/
def extractQuotesAppearanceOrder (summary : List Nat) (originalPage : Int) : List InlineQuote :=
  (dedupQuoteTexts [] ((appearanceSpansGo none summary).map jsTrim)).map
    (fun t => { text := t, commentary := none, originalPage := originalPage })

lemma list_contains_iff (seen : List (List Nat)) (t : List Nat) :
    seen.contains t = true ↔ t ∈ seen := by
  simp [List.contains_eq_any_beq, List.any_eq_true]

lemma dedupQuoteTexts_sublist (ts : List (List Nat)) :
    ∀ seen, (dedupQuoteTexts seen ts).Sublist ts := by
  induction ts with
  | nil => intro seen; exact List.Sublist.refl _
  | cons t ts ih =>
    intro seen
    rw [dedupQuoteTexts]
    split
    · exact (ih seen).cons t
    · exact (ih (t :: seen)).cons₂ t

lemma dedupQuoteTexts_not_mem_seen (ts : List (List Nat)) :
    ∀ seen, ∀ t ∈ dedupQuoteTexts seen ts, ¬ t ∈ seen := by
  induction ts with
  | nil => intro seen t ht; simp [dedupQuoteTexts] at ht
  | cons u ts ih =>
    intro seen t ht
    rw [dedupQuoteTexts] at ht
    split at ht
    · exact ih seen t ht
    · rename_i hcond
      rcases List.mem_cons.mp ht with rfl | hmem
      · intro hs
        apply hcond
        simp [list_contains_iff, hs]
      · intro hs
        exact ih (u :: seen) _ hmem (List.mem_cons_of_mem _ hs)

lemma dedupQuoteTexts_nodup (ts : List (List Nat)) :
    ∀ seen, (dedupQuoteTexts seen ts).Nodup := by
  induction ts with
  | nil => intro seen; simp [dedupQuoteTexts]
  | cons u ts ih =>
    intro seen
    rw [dedupQuoteTexts]
    split
    · exact ih seen
    · refine List.nodup_cons.mpr ⟨?_, ih (u :: seen)⟩
      intro hmem
      exact dedupQuoteTexts_not_mem_seen ts (u :: seen) u hmem (List.mem_cons_self _ _)

lemma dedupQuoteTexts_ne_nil (ts : List (List Nat)) :
    ∀ seen, ∀ t ∈ dedupQuoteTexts seen ts, t ≠ [] := by
  induction ts with
  | nil => intro seen t ht; simp [dedupQuoteTexts] at ht
  | cons u ts ih =>
    intro seen t ht
    rw [dedupQuoteTexts] at ht
    split at ht
    · exact ih seen t ht
    · rename_i hcond
      rcases List.mem_cons.mp ht with rfl | hmem
      · simp only [Bool.or_eq_true, decide_eq_true_iff] at hcond
        push_neg at hcond
        exact hcond.1
      · exact ih (u :: seen) t hmem

lemma dedupQuoteTexts_complete (ts : List (List Nat)) :
    ∀ seen, ∀ t ∈ ts, t ≠ [] → t ∈ dedupQuoteTexts seen ts ∨ t ∈ seen := by
  induction ts with
  | nil => intro seen t ht; exact absurd ht (List.not_mem_nil t)
  | cons u ts ih =>
    intro seen t ht hne
    rw [dedupQuoteTexts]
    rcases List.mem_cons.mp ht with rfl | hmem
    · split
      · rename_i hcond
        simp only [Bool.or_eq_true, decide_eq_true_iff] at hcond
        rcases hcond with h | h
        · exact absurd h hne
        · exact Or.inr ((list_contains_iff seen t).mp h)
      · exact Or.inl (List.mem_cons_self _ _)
    · split
      · exact ih seen t hmem hne
      · rcases ih (u :: seen) t hmem hne with h | h
        · exact Or.inl (List.mem_cons_of_mem _ h)
        · rcases List.mem_cons.mp h with rfl | h
          · exact Or.inl (List.mem_cons_self _ _)
          · exact Or.inr h

/-- C6 (amended): `extractQuotes` returns the quotation-mark-delimited
spans, each trimmed, deduplicated by exact text, each carrying
`originalPage` equal to the given page number and `commentary` null — but
listed with every smart-quoted span (in order of appearance) before every
straight-quoted span (in order of appearance), not globally in order of
first appearance. -/
theorem claim_C6 (summary : List Nat) (page : Int) :
    (extractQuotes summary page).map InlineQuote.text =
      dedupQuoteTexts []
        ((spansBetween 8220 8221 summary ++ spansBetween 34 34 summary).map jsTrim) ∧
    (∀ q ∈ extractQuotes summary page,
      q.originalPage = page ∧ q.commentary = none ∧ q.text ≠ []) ∧
    ((extractQuotes summary page).map InlineQuote.text).Nodup ∧
    ((extractQuotes summary page).map InlineQuote.text).Sublist
      ((spansBetween 8220 8221 summary ++ spansBetween 34 34 summary).map jsTrim) ∧
    (∀ t ∈ (spansBetween 8220 8221 summary ++ spansBetween 34 34 summary).map jsTrim,
      t ≠ [] → t ∈ (extractQuotes summary page).map InlineQuote.text) := by
  have hmap : (extractQuotes summary page).map InlineQuote.text =
      dedupQuoteTexts []
        ((spansBetween 8220 8221 summary ++ spansBetween 34 34 summary).map jsTrim) := by
    unfold extractQuotes
    rw [List.map_map]
    exact List.map_id'' (fun _ => rfl) _
  refine ⟨hmap, ?_, ?_, ?_, ?_⟩
  · intro q hq
    unfold extractQuotes at hq
    rcases List.mem_map.mp hq with ⟨t, hmem, rfl⟩
    exact ⟨rfl, rfl, dedupQuoteTexts_ne_nil _ [] t hmem⟩
  · rw [hmap]
    exact dedupQuoteTexts_nodup _ []
  · rw [hmap]
    exact dedupQuoteTexts_sublist _ []
  · intro t hmem hne
    rw [hmap]
    rcases dedupQuoteTexts_complete _ [] t hmem hne with h | h
    · exact h
    · exact absurd h (List.not_mem_nil t)

/-- Witness for C6 at a concrete summary containing one quote of each
style. -/
theorem claim_C6_witness :
    (⟨[98], none, 3⟩ : InlineQuote) ∈ extractQuotes [34, 97, 34, 32, 8220, 98, 8221] 3 ∧
    ((⟨[98], none, 3⟩ : InlineQuote).originalPage = 3 ∧
      (⟨[98], none, 3⟩ : InlineQuote).commentary = none ∧
      (⟨[98], none, 3⟩ : InlineQuote).text ≠ []) :=
  ⟨by decide,
    (claim_C6 [34, 97, 34, 32, 8220, 98, 8221] 3).2.1 ⟨[98], none, 3⟩ (by decide)⟩

/-- C6 counterexample: in the summary `"a" “b”` the straight-quoted span
`a` appears before the smart-quoted span `b`, yet `extractQuotes` lists
`b` first, because it runs the smart-quote loop to completion before the
straight-quote loop. -/
theorem claim_C6_counterexample :
    extractQuotes [34, 97, 34, 32, 8220, 98, 8221] 3 =
      [⟨[98], none, 3⟩, ⟨[97], none, 3⟩] ∧
    extractQuotesAppearanceOrder [34, 97, 34, 32, 8220, 98, 8221] 3 =
      [⟨[97], none, 3⟩, ⟨[98], none, 3⟩] ∧
    extractQuotes [34, 97, 34, 32, 8220, 98, 8221] 3 ≠
      extractQuotesAppearanceOrder [34, 97, 34, 32, 8220, 98, 8221] 3 := by
  refine ⟨by decide, by decide, by decide⟩

/-- A positioned text item as consumed by `extractPdfPages`
(`src/unnamed/part_002`, `TextItemLike`): `x`/`y` are `transform[4]` and
`transform[5]` (both absent when `transform` is not an array), `width` may
be undefined. -/
structure TextItem where
  str : List Nat
  x : Option ℚ
  y : Option ℚ
  width : Option ℚ
  hasEOL : Bool

/-- The regexp class of `PUNCTUATION_START`:
`/[\s.,;:!?'"’”)\]\}«»]/`. -/
def punctuationStart (c : Nat) : Bool :=
  isJsWhitespace c ||
    [46, 44, 59, 58, 33, 63, 39, 34, 8217, 8221, 41, 93, 125, 171, 187].contains c

/-- The regexp class of `PUNCTUATION_END`:
`/[\s\-–—({[\<'"“‘]/`. -/
def punctuationEnd (c : Nat) : Bool :=
  isJsWhitespace c ||
    [45, 8211, 8212, 40, 123, 91, 60, 39, 34, 8220, 8216].contains c

/-- `shouldInsertSpace` from `src/unnamed/part_002` (lines 30-50):
`previousChar` is the last unit of the buffer (`none` when empty). -/
def shouldInsertSpace (previousChar : Option Nat) (nextFragment : List Nat) : Bool :=
  match previousChar with
  | none => false
  | some prev =>
    if isJsWhitespace prev then false
    else if punctuationEnd prev then false
    else
      match jsTrim nextFragment with
      | [] => false
      | first :: _ =>
        if punctuationStart first then false
        else if prev = 45 || prev = 8208 || prev = 8209 then false
        else true

/-- The mutable state of the `pagerender` fragment loop:
the text buffer and the `(lastY, lastX)` cursor. -/
structure AsmState where
  assembled : List Nat
  lastY : Option ℚ
  lastX : Option ℚ

/-- One iteration of the fragment loop of `extractPdfPages`
(`src/unnamed/part_002` lines 100-141): a line break when the Y delta
exceeds 1 (trimming trailing whitespace first), else a single inferred
space when the X gap `currentX - lastX` exceeds `SPACE_GAP_THRESHOLD = 5`,
else the punctuation heuristic; then the fragment text is appended, the
cursor advances (`lastX := currentX + width`, or `currentX` when `width` is
undefined, or null when `currentX` is null — the `lastX = null` write in
the Y-branch is dead, being unconditionally overwritten at lines 130-134),
and a source-flagged EOL forces a line break and clears `lastX`. -/
def asmStep (st : AsmState) (item : TextItem) : AsmState :=
  let previousChar := st.assembled.getLast?
  let newlineBreak : Bool :=
    match st.lastY, item.y with
    | some ly, some cy => decide (|cy - ly| > 1)
    | _, _ => false
  let gapSpace : Bool :=
    match st.lastX, item.x with
    | some lx, some cx => decide (cx - lx > 5)
    | _, _ => false
  let assembled1 :=
    if newlineBreak then jsTrimEnd st.assembled ++ [10]
    else if gapSpace then st.assembled ++ [32]
    else if shouldInsertSpace previousChar item.str then st.assembled ++ [32]
    else st.assembled
  let assembled2 := assembled1 ++ item.str
  let lastY1 :=
    match item.y with
    | some cy => some cy
    | none => st.lastY
  let lastX1 :=
    match item.x, item.width with
    | some cx, some w => some (cx + w)
    | some cx, none => some cx
    | none, _ => none
  if item.hasEOL then
    { assembled := jsTrimEnd assembled2 ++ [10], lastY := lastY1, lastX := none }
  else
    { assembled := assembled2, lastY := lastY1, lastX := lastX1 }

/-- The assembled raw text of one page: the fragment loop run over the
page's items starting from an empty buffer and unknown cursor. -/
def assemblePage (items : List TextItem) : List Nat :=
  (items.foldl asmStep { assembled := [], lastY := none, lastX := none }).assembled

/-- `input.replace(/\r\n/g, "\n")`. -/
def replaceCRLF : List Nat → List Nat
  | [] => []
  | 13 :: 10 :: rest => 10 :: replaceCRLF rest
  | c :: rest => c :: replaceCRLF rest

/-- The effect of the global replacement `/\s+\n/g → "\n"` on one maximal
whitespace run: the regexp matches the prefix of the run up to its last
newline provided that newline is not the run's first unit, and the
(newline-free) remainder of the run is copied verbatim. -/
def processWsRun (run : List Nat) : List Nat :=
  let afterLastNl := run.reverse.takeWhile (fun d => d ≠ 10)
  if afterLastNl.length = run.length then run
  else if run.length - afterLastNl.length - 1 ≥ 1 then 10 :: afterLastNl.reverse
  else run

/-- `input.replace(/\s+\n/g, "\n")`, scanning maximal whitespace runs
(`pendingRev` holds the current run, reversed). -/
def repWsNlGo (pendingRev : List Nat) : List Nat → List Nat
  | [] => processWsRun pendingRev.reverse
  | c :: rest =>
    if isJsWhitespace c then repWsNlGo (c :: pendingRev) rest
    else processWsRun pendingRev.reverse ++ (c :: repWsNlGo [] rest)

/-- `normalizeWhitespace` from `src/unnamed/part_002` (lines 26-28):
CRLF to LF, collapse whitespace-before-newline, trim. -/
def normalizeWhitespace (s : List Nat) : List Nat :=
  jsTrim (repWsNlGo [] (replaceCRLF s))

/-- `DEFAULT_MIN_CHAR_THRESHOLD` from `src/unnamed/part_002` line 12. -/
def DEFAULT_MIN_CHAR_THRESHOLD : Nat := 12

/-- The page-accumulation loop of `extractPdfPages` (lines 143-153):
`pageIndex` is incremented and a page pushed only when the normalized text
reaches the threshold; dropped pages consume no page number. -/
def extractPagesGo : Int → List (List TextItem) → List PageContent
  | _, [] => []
  | pageIndex, items :: rest =>
    let cleaned := normalizeWhitespace (assemblePage items)
    if DEFAULT_MIN_CHAR_THRESHOLD ≤ cleaned.length then
      { pageNumber := pageIndex + 1, text := cleaned,
        wordCount := ((jsWords cleaned).length : ℚ) } :: extractPagesGo (pageIndex + 1) rest
    else extractPagesGo pageIndex rest

/-- `extractPdfPages` over the per-page fragment sequences (the
`pagerender` callback runs once per document page, in order). -/
def extractPdfPages (pagesItems : List (List TextItem)) : List PageContent :=
  extractPagesGo 0 pagesItems

/-- Sequential numbering of the surviving page texts starting at `n`. -/
def numberPages : Int → List (List Nat) → List PageContent
  | _, [] => []
  | n, t :: ts =>
    { pageNumber := n, text := t, wordCount := ((jsWords t).length : ℚ) } :: numberPages (n + 1) ts

lemma extractPagesGo_eq (pagesItems : List (List TextItem)) :
    ∀ n : Int,
      extractPagesGo n pagesItems =
        numberPages (n + 1)
          ((pagesItems.map (fun its => normalizeWhitespace (assemblePage its))).filter
            (fun t => decide (DEFAULT_MIN_CHAR_THRESHOLD ≤ t.length))) := by
  induction pagesItems with
  | nil => intro n; rfl
  | cons its rest ih =>
    intro n
    simp only [extractPagesGo, List.map_cons, List.filter_cons]
    by_cases h : DEFAULT_MIN_CHAR_THRESHOLD ≤ (normalizeWhitespace (assemblePage its)).length
    · rw [if_pos h, if_pos (by simp [h]), numberPages, ih (n + 1)]
    · rw [if_neg h, if_neg (by simp [h])]
      exact ih n

lemma numberPages_text_mem (ts : List (List Nat)) :
    ∀ n p, p ∈ numberPages n ts → p.text ∈ ts := by
  induction ts with
  | nil => intro n p hp; simp [numberPages] at hp
  | cons t ts ih =>
    intro n p hp
    rw [numberPages] at hp
    rcases List.mem_cons.mp hp with rfl | hp
    · exact List.mem_cons_self _ _
    · exact List.mem_cons_of_mem _ (ih (n + 1) p hp)

/-- C4 (amended): a page is emitted iff its normalized assembled text has
length at least `DEFAULT_MIN_CHAR_THRESHOLD = 12` (not 14); shorter pages
are dropped and receive no page number — the surviving pages are numbered
sequentially from 1. -/
theorem claim_C4 (pagesItems : List (List TextItem)) :
    extractPdfPages pagesItems =
      numberPages 1
        ((pagesItems.map (fun its => normalizeWhitespace (assemblePage its))).filter
          (fun t => decide (DEFAULT_MIN_CHAR_THRESHOLD ≤ t.length))) ∧
    (extractPdfPages pagesItems).all
      (fun p => decide (DEFAULT_MIN_CHAR_THRESHOLD ≤ p.text.length)) = true := by
  have h := extractPagesGo_eq pagesItems 0
  norm_num at h
  refine ⟨h, ?_⟩
  rw [List.all_eq_true]
  intro p hp
  rw [extractPdfPages, h] at hp
  have hmem := numberPages_text_mem _ 1 p hp
  have hfil := List.of_mem_filter hmem
  simpa using hfil

/-- C4 counterexample: a page whose normalized text has exactly 12
characters is emitted by the code (the threshold constant is 12), although
the claim says pages shorter than 14 characters are dropped. -/
theorem claim_C4_counterexample :
    (extractPdfPages
        [[⟨[97, 98, 99, 100, 101, 102, 103, 104, 105, 106, 107, 108],
            none, none, none, false⟩]]).map
      (fun p => (p.pageNumber, p.text.length)) = [(1, 12)] ∧
    ¬ 14 ≤ (12 : Nat) := by decide

/-- C5 (amended): in a step that triggers no line break (known Y within 1)
with a known horizontal cursor, an X gap `currentX - lastX > 5` inserts
exactly one space between the two fragments, and a gap ≤ 0 inserts no
space provided the punctuation word-boundary heuristic
(`shouldInsertSpace`) does not fire — the heuristic can still insert one
space at a non-positive gap. -/
theorem claim_C5 (st : AsmState) (item : TextItem) (ly cy lx cx : ℚ)
    (hly : st.lastY = some ly) (hcy : item.y = some cy) (hysame : |cy - ly| ≤ 1)
    (hlx : st.lastX = some lx) (hcx : item.x = some cx)
    (heol : item.hasEOL = false) :
    (cx - lx > 5 →
      (asmStep st item).assembled = st.assembled ++ [32] ++ item.str) ∧
    (cx - lx ≤ 0 → shouldInsertSpace st.assembled.getLast? item.str = false →
      (asmStep st item).assembled = st.assembled ++ item.str) := by
  have hnb : ¬ (|cy - ly| > 1) := not_lt.mpr hysame
  constructor
  · intro hgap
    unfold asmStep
    rw [hly, hcy, hlx, hcx, heol]
    simp [hnb, hgap, List.append_assoc]
  · intro hle hsi
    have hng : ¬ (cx - lx > 5) := by linarith
    unfold asmStep
    rw [hly, hcy, hlx, hcx, heol]
    simp [hnb, hng, hsi]

/-- Witness for C5 at a concrete state and item with a gap of 6. -/
theorem claim_C5_witness :
    ((⟨[104, 101], some 0, some 1⟩ : AsmState).lastY = some (0 : ℚ) ∧
      (⟨[108, 108, 111], some 7, some 0, some 1, false⟩ : TextItem).y = some (0 : ℚ) ∧
      |(0 : ℚ) - 0| ≤ 1 ∧
      (⟨[104, 101], some 0, some 1⟩ : AsmState).lastX = some (1 : ℚ) ∧
      (⟨[108, 108, 111], some 7, some 0, some 1, false⟩ : TextItem).x = some (7 : ℚ) ∧
      (⟨[108, 108, 111], some 7, some 0, some 1, false⟩ : TextItem).hasEOL = false) ∧
    (((7 : ℚ) - 1 > 5 →
        (asmStep ⟨[104, 101], some 0, some 1⟩
            ⟨[108, 108, 111], some 7, some 0, some 1, false⟩).assembled =
          [104, 101] ++ [32] ++ [108, 108, 111]) ∧
      ((7 : ℚ) - 1 ≤ 0 →
        shouldInsertSpace ([104, 101] : List Nat).getLast? [108, 108, 111] = false →
        (asmStep ⟨[104, 101], some 0, some 1⟩
            ⟨[108, 108, 111], some 7, some 0, some 1, false⟩).assembled =
          [104, 101] ++ [108, 108, 111])) :=
  ⟨⟨rfl, rfl, by norm_num, rfl, rfl, rfl⟩,
    claim_C5 ⟨[104, 101], some 0, some 1⟩ ⟨[108, 108, 111], some 7, some 0, some 1, false⟩
      0 0 1 7 rfl rfl (by norm_num) rfl rfl rfl⟩

/-- C5 counterexample: with previous fragment `he` ending at X cursor 1 and
next fragment `llo` starting at X origin 0 (gap −1 ≤ 0) on the same line,
the assembler still inserts a space, because `shouldInsertSpace` fires
between the letters `e` and `l`; the claim's "zero spaces when the gap
is ≤ 0" is false. -/
theorem claim_C5_counterexample :
    ((0 : ℚ) - 1 ≤ 0) ∧
    (asmStep ⟨[104, 101], some 0, some 1⟩
        ⟨[108, 108, 111], some 0, some 0, some 1, false⟩).assembled =
      [104, 101, 32, 108, 108, 111] ∧
    ¬ (asmStep ⟨[104, 101], some 0, some 1⟩
        ⟨[108, 108, 111], some 0, some 0, some 1, false⟩).assembled =
      [104, 101] ++ [108, 108, 111] := by
  have h : (asmStep ⟨[104, 101], some 0, some 1⟩
      ⟨[108, 108, 111], some 0, some 0, some 1, false⟩).assembled =
      [104, 101, 32, 108, 108, 111] := by
    norm_num [asmStep, shouldInsertSpace, punctuationStart, punctuationEnd,
      isJsWhitespace, jsTrim]
  refine ⟨by norm_num, h, ?_⟩
  rw [h]
  decide

/-- The `REPLACEMENTS` table of the renderer (`src/unnamed/part_002` lines
212-244), as an association list of code points to replacement code-unit
sequences, in source order: curly/low/angled double quotes to `"`,
curly/low single quotes to `'`, dash variants to `-`, ellipsis to `...`,
bullet-like glyphs to `*`, and em/en/thin/hair/narrow-no-break spaces and
the no-break space to a plain space. -/
def REPLACEMENTS : List (Nat × List Nat) :=
  [(8220, [34]), (8221, [34]), (8222, [34]), (171, [34]), (187, [34]),
   (8216, [39]), (8217, [39]), (8218, [39]),
   (8212, [45]), (8211, [45]), (8209, [45]), (8210, [45]),
   (8230, [46, 46, 46]),
   (8226, [42]), (9702, [42]), (183, [42]), (9679, [42]), (9642, [42]),
   (9632, [42]), (9633, [42]), (9830, [42]), (9650, [42]), (9651, [42]),
   (9652, [42]), (9653, [42]),
   (8195, [32]), (8194, [32]), (8201, [32]), (8202, [32]), (8239, [32]),
   (160, [32])]

/-- The per-character mapping of `sanitizeForPdf` (lines 246-256): a unit
at most `"ÿ"` is returned unchanged (the string comparison
`char <= "ÿ"` compares single code units by value), otherwise the
substitution table is consulted (`REPLACEMENTS[char] ?? ""`). -/
def sanitizeChar (c : Nat) : List Nat :=
  if c ≤ 255 then [c]
  else
    match REPLACEMENTS.lookup c with
    | some r => r
    | none => []

/-- `sanitizeForPdf`: `text.split("").map(...).join("")`. -/
def sanitizeForPdf (s : List Nat) : List Nat :=
  s.flatMap sanitizeChar

lemma lookup_mem_pairs {l : List (Nat × List Nat)} {c : Nat} {r : List Nat} :
    l.lookup c = some r → (c, r) ∈ l := by
  induction l with
  | nil => intro h; simp [List.lookup] at h
  | cons p l ih =>
    intro h
    rcases p with ⟨k, v⟩
    rw [List.lookup] at h
    rcases hbeq : (c == k) with _ | _
    · rw [hbeq] at h
      exact List.mem_cons_of_mem _ (ih h)
    · rw [hbeq] at h
      injection h with h'
      subst h'
      have hk : c = k := by simpa using hbeq
      subst hk
      exact List.mem_cons_self _ _

lemma sanitizeChar_all_le (c : Nat) : ∀ d ∈ sanitizeChar c, d ≤ 255 := by
  intro d hd
  unfold sanitizeChar at hd
  split at hd
  · rename_i hc
    rw [List.mem_singleton] at hd
    omega
  · split at hd
    · rename_i r hr
      have hmem := lookup_mem_pairs hr
      have hall : ∀ p ∈ REPLACEMENTS, ∀ d ∈ p.2, d ≤ 255 := by decide
      exact hall (c, r) hmem d hd
    · exact absurd hd (List.not_mem_nil d)

lemma sanitizeForPdf_of_all_le (s : List Nat) (h : ∀ c ∈ s, c ≤ 255) :
    sanitizeForPdf s = s := by
  induction s with
  | nil => rfl
  | cons c cs ih =>
    have hc : c ≤ 255 := h c (List.mem_cons_self _ _)
    have hcs := ih fun d hd => h d (List.mem_cons_of_mem _ hd)
    show sanitizeChar c ++ sanitizeForPdf cs = c :: cs
    rw [sanitizeChar, if_pos hc, hcs]
    rfl

/-- C8: the renderer's character sanitization is idempotent — every unit it
emits is at most 255 and such units pass through unchanged. -/
theorem claim_C8 (s : List Nat) :
    sanitizeForPdf (sanitizeForPdf s) = sanitizeForPdf s := by
  apply sanitizeForPdf_of_all_le
  intro c hc
  rcases List.mem_flatMap.mp hc with ⟨d, _, hcd⟩
  exact sanitizeChar_all_le d c hcd

/-- C10: sanitization passes every unit with code point at most 255
through unchanged — including `«` (171), `»` (187) and the no-break space
(160), which also appear in the substitution table — and consults the
table (or drops the unit) only above 255. -/
theorem claim_C10 :
    (∀ c : Nat, c ≤ 255 → sanitizeForPdf [c] = [c]) ∧
    (∀ c : Nat, ¬ c ≤ 255 → sanitizeForPdf [c] = (REPLACEMENTS.lookup c).getD []) ∧
    sanitizeForPdf [171] = [171] ∧
    sanitizeForPdf [187] = [187] ∧
    sanitizeForPdf [160] = [160] ∧
    REPLACEMENTS.lookup 171 = some [34] ∧
    REPLACEMENTS.lookup 187 = some [34] ∧
    REPLACEMENTS.lookup 160 = some [32] := by
  refine ⟨?_, ?_, by decide, by decide, by decide, by decide, by decide, by decide⟩
  · intro c hc
    show sanitizeChar c ++ sanitizeForPdf [] = [c]
    rw [sanitizeChar, if_pos hc]
    rfl
  · intro c hc
    show sanitizeChar c ++ sanitizeForPdf [] = (REPLACEMENTS.lookup c).getD []
    rw [sanitizeChar, if_neg hc]
    rcases REPLACEMENTS.lookup c with _ | r
    · simp [sanitizeForPdf]
    · simp [sanitizeForPdf]

/-- Witness for C10 at the angled quote `«` (in the table, yet preserved)
and the ellipsis (above 255, substituted via the table). -/
theorem claim_C10_witness :
    ((171 : Nat) ≤ 255 ∧ sanitizeForPdf [171] = [171]) ∧
    (¬ (8230 : Nat) ≤ 255 ∧ sanitizeForPdf [8230] = (REPLACEMENTS.lookup 8230).getD []) :=
  ⟨⟨by decide, claim_C10.1 171 (by decide)⟩,
    ⟨by decide, claim_C10.2.1 8230 (by decide)⟩⟩

/-- `WrappedLine` from the renderer (`src/unnamed/part_002` lines
206-210). -/
structure WrappedLine where
  text : List Nat
  x : ℚ
  y : ℚ

/-- The character-by-character hard-break loop of `wrapText`
(`src/unnamed/part_002` lines 296-317), with `W` modelling
`font.widthOfTextAtSize(·, fontSize)`: grow `chunk` while it still fits,
otherwise flush it and restart from the current character; at the last
character whatever is pending is flushed. Returns the emitted lines and the
final `y`. -/
def hbGo (W : List Nat → ℚ) (mw x lh : ℚ) :
    List Nat → List Nat → ℚ → List WrappedLine × ℚ
  | [], _, y => ([], y)
  | c :: rest, chunk, y =>
    if W (chunk ++ [c]) ≤ mw then
      match rest with
      | [] => ([⟨chunk ++ [c], x, y⟩], y - lh)
      | _ :: _ => hbGo W mw x lh rest (chunk ++ [c]) y
    else
      match rest with
      | [] => ([⟨chunk, x, y⟩, ⟨[c], x, y - lh⟩], y - lh - lh)
      | _ :: _ =>
        (⟨chunk, x, y⟩ :: (hbGo W mw x lh rest [c] (y - lh)).1,
          (hbGo W mw x lh rest [c] (y - lh)).2)

/-- The hard-break entry point: the loop starts with an empty chunk
(line 297, `let chunk = ""`). -/
def hardBreakWord (W : List Nat → ℚ) (mw x lh : ℚ) (word : List Nat) (y : ℚ) :
    List WrappedLine × ℚ :=
  hbGo W mw x lh word [] y

/-- The greedy word loop of `wrapText` (lines 278-327): extend the current
line while the candidate `currentLine + " " + word` fits; on overflow flush
the current line, then hard-break the word if the word alone is wider than
`maxWidth`, else start a new line with it; the last word flushes whatever
is pending. -/
def wrapGo (W : List Nat → ℚ) (mw x lh : ℚ) :
    List (List Nat) → List Nat → ℚ → List WrappedLine × ℚ
  | [], _, y => ([], y)
  | w :: rest, currentLine, y =>
    let candidate := if currentLine = [] then w else currentLine ++ [32] ++ w
    if W candidate ≤ mw then
      match rest with
      | [] => ([⟨candidate, x, y⟩], y - lh)
      | _ :: _ => wrapGo W mw x lh rest candidate y
    else
      let flush : List WrappedLine × ℚ :=
        if currentLine = [] then ([], y) else ([⟨currentLine, x, y⟩], y - lh)
      if W w > mw then
        let hb := hbGo W mw x lh w [] flush.2
        let more := wrapGo W mw x lh rest [] hb.2
        (flush.1 ++ hb.1 ++ more.1, more.2)
      else
        match rest with
        | [] => (flush.1 ++ [⟨w, x, flush.2⟩], flush.2 - lh)
        | _ :: _ => wrapGo W mw x lh rest w flush.2

/-- `wrapText` (lines 258-330): sanitize, split into words
(`split(/\s+/).map(trim).filter(Boolean)`), then run the greedy loop from
an empty current line at the caller-supplied start position. -/
def wrapText (W : List Nat → ℚ) (mw x startY lh : ℚ) (text : List Nat) :
    List WrappedLine :=
  let words := ((jsWords (sanitizeForPdf text)).map jsTrim).filter (fun w => decide (w ≠ []))
  (wrapGo W mw x lh words [] startY).1

lemma hbGo_inv (W : List Nat → ℚ) (mw x lh : ℚ) :
    ∀ (chars chunk : List Nat) (y : ℚ),
      (∀ c ∈ chars, W [c] ≤ mw) → W chunk ≤ mw →
      (∀ l ∈ (hbGo W mw x lh chars chunk y).1, W l.text ≤ mw) ∧
      ((hbGo W mw x lh chars chunk y).1.map WrappedLine.text).flatten =
        (if chars = [] then [] else chunk ++ chars) := by
  intro chars
  induction chars with
  | nil =>
    intro chunk y _ _
    exact ⟨fun l hl => absurd hl (List.not_mem_nil l), rfl⟩
  | cons c rest ih =>
    intro chunk y hchars hchunk
    have hc : W [c] ≤ mw := hchars c (List.mem_cons_self _ _)
    have hrest : ∀ d ∈ rest, W [d] ≤ mw :=
      fun d hd => hchars d (List.mem_cons_of_mem _ hd)
    rcases rest with _ | ⟨d, rest'⟩
    · rw [hbGo]
      by_cases hfit : W (chunk ++ [c]) ≤ mw
      · rw [if_pos hfit]
        refine ⟨?_, by simp⟩
        intro l hl
        rw [List.mem_singleton] at hl
        subst hl
        exact hfit
      · rw [if_neg hfit]
        refine ⟨?_, by simp⟩
        intro l hl
        rcases List.mem_cons.mp hl with rfl | hl
        · exact hchunk
        · rw [List.mem_singleton] at hl
          subst hl
          exact hc
    · rw [hbGo]
      by_cases hfit : W (chunk ++ [c]) ≤ mw
      · rw [if_pos hfit]
        have h := ih (chunk ++ [c]) y hrest hfit
        refine ⟨h.1, ?_⟩
        rw [h.2, if_neg (by simp)]
        simp
      · rw [if_neg hfit]
        have h := ih [c] (y - lh) hrest hc
        constructor
        · intro l hl
          rcases List.mem_cons.mp hl with rfl | hl
          · exact hchunk
          · exact h.1 l hl
        · simp only [List.map_cons, List.flatten_cons]
          rw [h.2, if_neg (by simp)]
          simp

/-- C9 (amended): every word is hard-broken character-by-character into
chunks whose concatenation is the word, and — provided every single
character fits within `maxWidth` and the empty string does too — every
emitted chunk has measured width at most `maxWidth`. (Without the
per-character proviso a chunk can exceed `maxWidth`: the loop can emit a
single character wider than the limit.) `wrapText` invokes this loop
exactly for the words with `W word > maxWidth`. -/
theorem claim_C9 (W : List Nat → ℚ) (mw x lh y : ℚ) (word : List Nat)
    (hchar : ∀ c ∈ word, W [c] ≤ mw) (hempty : W [] ≤ mw) :
    (∀ l ∈ (hardBreakWord W mw x lh word y).1, W l.text ≤ mw) ∧
    ((hardBreakWord W mw x lh word y).1.map WrappedLine.text).flatten = word := by
  have h := hbGo_inv W mw x lh word [] y hchar hempty
  refine ⟨h.1, ?_⟩
  rw [hardBreakWord, h.2]
  by_cases hw : word = []
  · simp [hw]
  · simp [hw]

/-- Witness for C9 at a three-character word, unit character widths and
maximum width 2. -/
theorem claim_C9_witness :
    ((∀ c ∈ ([97, 98, 99] : List Nat),
        (fun s : List Nat => (s.length : ℚ)) [c] ≤ 2) ∧
      (fun s : List Nat => (s.length : ℚ)) [] ≤ 2) ∧
    ((∀ l ∈ (hardBreakWord (fun s : List Nat => (s.length : ℚ)) 2 0 1 [97, 98, 99] 0).1,
        (fun s : List Nat => (s.length : ℚ)) l.text ≤ 2) ∧
      ((hardBreakWord (fun s : List Nat => (s.length : ℚ)) 2 0 1 [97, 98, 99] 0).1.map
          WrappedLine.text).flatten = [97, 98, 99]) := by
  have hchar : ∀ c ∈ ([97, 98, 99] : List Nat),
      (fun s : List Nat => (s.length : ℚ)) [c] ≤ 2 := by
    intro c _
    show ((1 : ℕ) : ℚ) ≤ 2
    norm_num
  have hempty : (fun s : List Nat => (s.length : ℚ)) [] ≤ 2 := by
    show ((0 : ℕ) : ℚ) ≤ 2
    norm_num
  exact ⟨⟨hchar, hempty⟩,
    claim_C9 (fun s : List Nat => (s.length : ℚ)) 2 0 1 0 [97, 98, 99] hchar hempty⟩

/-- C9 counterexample: with every character 10 units wide and maximum
width 5, the word `ab` is wider than the maximum and is hard-broken, but
the emitted chunks `a` and `b` (width 10) each still exceed the maximum —
and an empty chunk is emitted as well: the claim's "every emitted chunk has
measured width at most maxWidth" is false. -/
theorem claim_C9_counterexample :
    ((fun s : List Nat => 10 * (s.length : ℚ)) [97, 98] > 5) ∧
    (wrapText (fun s : List Nat => 10 * (s.length : ℚ)) 5 0 100 18 [97, 98]).map
      WrappedLine.text = [[], [97], [98]] ∧
    ¬ (∀ l ∈ wrapText (fun s : List Nat => 10 * (s.length : ℚ)) 5 0 100 18 [97, 98],
        (fun s : List Nat => 10 * (s.length : ℚ)) l.text ≤ 5) := by
  have hwords : ((jsWords (sanitizeForPdf [97, 98])).map jsTrim).filter
      (fun w => decide (w ≠ [])) = [[97, 98]] := by decide
  have hmap : (wrapText (fun s : List Nat => 10 * (s.length : ℚ)) 5 0 100 18 [97, 98]).map
      WrappedLine.text = [[], [97], [98]] := by
    have htrim : jsTrim [97, 98] = [97, 98] := by decide
    norm_num [wrapText, hwords, wrapGo, hbGo, htrim]
  refine ⟨by norm_num, hmap, ?_⟩
  intro hall
  have hmem : ([97] : List Nat) ∈ (wrapText (fun s : List Nat => 10 * (s.length : ℚ))
      5 0 100 18 [97, 98]).map WrappedLine.text := by
    rw [hmap]
    exact List.mem_cons_of_mem _ (List.mem_cons_self _ _)
  rcases List.mem_map.mp hmem with ⟨l, hl, hlt⟩
  have := hall l hl
  rw [hlt] at this
  norm_num at this

example : jsWords [97, 32, 32, 98, 99] = [[97], [98, 99]] := by decide
example : jsTrim [32, 97, 32] = [97] := by decide
example : spansBetween 34 34 [34, 97, 34, 32, 34, 98, 34] = [[97], [98]] := by decide
example : spansBetween 8220 8221 [8220, 97, 8221] = [[97]] := by decide
example :
    extractQuotes [34, 97, 34, 32, 8220, 98, 8221] 3 =
      [⟨[98], none, 3⟩, ⟨[97], none, 3⟩] := by decide

end BookCondense
